import Mathlib

/-!
Verification of the loss / reconstruction layer of a Capsule Network
(`capsule_network.py`).

The tensor code is modelled over the real numbers.  A tensor of shape
`[batch, 10, 16]` becomes a function `Fin batch → Fin 10 → Fin 16 → ℝ`;
the MNIST images of shape `[batch, 1, 28, 28]` are modelled through their
flattened view `Fin batch → Fin 784 → ℝ` (the source only ever uses them
through `.view(batch_size, -1)`, a bijective re-indexing).
`torch.Tensor.mean()` is modelled as the sum of the entries divided by the
number of entries, `assert` as `Except.error`, and the external `Decoder`
collaborator as an uninterpreted function from the flattened masked
capsules (160 values) to an image (784 pixels).

A second, shape-carrying embedding of `margin_loss` (`margin_loss_dyn`
below) keeps the dynamic sizes of the tensors and implements the
broadcasting rules of elementwise torch operations, in order to settle the
shape-mismatch claim.
-/

/-- The capsule-network module state relevant to the loss computation:
the constructor flags (`routing_iters`, `reconstruct`, `gpu`) stored by
`__init__`, and the external `Decoder` collaborator (present when
`reconstruct=True`), modelled as a black-box map from 160 = 10*16 masked
capsule values to a 784-pixel image. -/
structure CapsuleNetwork where
  routing_iters : Int
  has_reconstruction : Bool
  gpu : Int
  decoder : (Fin 160 → ℝ) → Fin 784 → ℝ

/-- Length of one output-capsule vector: `torch.sqrt((input**2).sum(dim=2))`
for one sample and one class. -/
noncomputable def v_mag_of {n d : ℕ} (u : Fin n → Fin d → ℝ) (c : Fin n) : ℝ :=
  Real.sqrt (∑ k : Fin d, (u c k) ^ 2)

/-- `CapsuleNetwork.margin_loss` (lines 74-109 of `capsule_network.py`):
`v_mag = sqrt((input**2).sum(dim=2))`, hinge terms
`max_l = max(0.9 - v_mag, 0)**2` and `max_r = max(v_mag - 0.1, 0)**2`,
`L_c = T_c * max_l + 0.5 * (1 - T_c) * max_r`, summed over the class
dimension and then averaged (`mean`) or summed over the batch. -/
noncomputable def CapsuleNetwork.margin_loss (_net : CapsuleNetwork) {b : ℕ}
    (input : Fin b → Fin 10 → Fin 16 → ℝ) (target : Fin b → Fin 10 → ℝ)
    (size_average : Bool) : ℝ :=
  let v_mag : Fin b → Fin 10 → ℝ := fun i c => v_mag_of (input i) c
  let max_l : Fin b → Fin 10 → ℝ := fun i c => (max (0.9 - v_mag i c) 0) ^ 2
  let max_r : Fin b → Fin 10 → ℝ := fun i c => (max (v_mag i c - 0.1) 0) ^ 2
  let L_c : Fin b → ℝ := fun i =>
    ∑ c : Fin 10, (target i c * max_l i c + 0.5 * (1 - target i c) * max_r i c)
  if size_average then (∑ i : Fin b, L_c i) / (b : ℝ) else ∑ i : Fin b, L_c i

/-- C1: for an output-capsule tensor `[batch, 10, 16]` and a target
`[batch, 10]`, `margin_loss` returns the per-class losses
`L_c = T_c * max(0, 0.9 - ‖v_c‖)² + 0.5 * (1 - T_c) * max(0, ‖v_c‖ - 0.1)²`
(with `‖v_c‖` the Euclidean norm of the 16-dimensional capsule vector),
summed over the 10 classes, then averaged or summed over the batch
according to `size_average`. -/
theorem margin_loss_formula (net : CapsuleNetwork) {b : ℕ}
    (input : Fin b → Fin 10 → Fin 16 → ℝ) (target : Fin b → Fin 10 → ℝ)
    (size_average : Bool) :
    net.margin_loss input target size_average =
      (let L : Fin b → Fin 10 → ℝ := fun i c =>
        target i c * (max 0 (0.9 - ‖(WithLp.equiv 2 (Fin 16 → ℝ)).symm (input i c)‖)) ^ 2
          + 0.5 * (1 - target i c) *
            (max 0 (‖(WithLp.equiv 2 (Fin 16 → ℝ)).symm (input i c)‖ - 0.1)) ^ 2
      if size_average then (∑ i : Fin b, ∑ c : Fin 10, L i c) / (b : ℝ)
      else ∑ i : Fin b, ∑ c : Fin 10, L i c) := by
  have hnorm : ∀ (i : Fin b) (c : Fin 10),
      ‖(WithLp.equiv 2 (Fin 16 → ℝ)).symm (input i c)‖ = v_mag_of (input i) c := by
    intro i c
    rw [EuclideanSpace.norm_eq]
    unfold v_mag_of
    congr 1
    refine Finset.sum_congr rfl fun k _ => ?_
    rw [Real.norm_eq_abs, sq_abs]
    rfl
  unfold CapsuleNetwork.margin_loss
  simp only [hnorm, max_comm (0 : ℝ)]

/-- C2: when the target is one-hot and, for every sample, the target
class's capsule norm is at least 0.9 while every other class's norm is at
most 0.1, `margin_loss` is exactly 0 under either reduction mode. -/
theorem margin_loss_zero (net : CapsuleNetwork) {b : ℕ}
    (input : Fin b → Fin 10 → Fin 16 → ℝ) (target : Fin b → Fin 10 → ℝ)
    (cls : Fin b → Fin 10)
    (honehot : ∀ i c, target i c = if c = cls i then 1 else 0)
    (htar : ∀ i, 0.9 ≤ v_mag_of (input i) (cls i))
    (hnon : ∀ i c, c ≠ cls i → v_mag_of (input i) c ≤ 0.1)
    (size_average : Bool) :
    net.margin_loss input target size_average = 0 := by
  unfold CapsuleNetwork.margin_loss
  have hL : ∀ i : Fin b,
      (∑ c : Fin 10, (target i c * (max (0.9 - v_mag_of (input i) c) 0) ^ 2
        + 0.5 * (1 - target i c) * (max (v_mag_of (input i) c - 0.1) 0) ^ 2)) = 0 := by
    intro i
    refine Finset.sum_eq_zero fun c _ => ?_
    rw [honehot]
    rcases eq_or_ne c (cls i) with hc | hc
    · have h9 : max (0.9 - v_mag_of (input i) (cls i)) 0 = 0 := by
        refine max_eq_right ?_
        have := htar i
        linarith
      simp [hc, h9]
    · have h1 : max (v_mag_of (input i) c - 0.1) 0 = 0 := by
        refine max_eq_right ?_
        have := hnon i c hc
        linarith
      simp [hc, h1]
  simp only [hL, Finset.sum_const_zero, zero_div]
  rcases size_average with _ | _ <;> simp

/-- Concrete network used in witnesses: `routing_iters=3`,
`reconstruct=True`, `gpu=-1`, decoder constantly zero. -/
noncomputable def net0 : CapsuleNetwork := ⟨3, true, -1, fun _ _ => 0⟩

/-- Concrete capsule tensor, batch 1: capsule 0 is the constant vector
`1/4` (norm `sqrt(16/16) = 1`), other capsules are zero (norm 0). -/
noncomputable def input0 : Fin 1 → Fin 10 → Fin 16 → ℝ :=
  fun _ c _ => if c = 0 then 1/4 else 0

/-- Concrete one-hot target, batch 1, class 0. -/
noncomputable def target0 : Fin 1 → Fin 10 → ℝ :=
  fun _ c => if c = 0 then 1 else 0

/-- Witness for C2 at a concrete input: batch 1, one-hot class 0, capsule
0 of norm 1 and the others of norm 0 give margin loss 0. -/
theorem margin_loss_zero_witness : net0.margin_loss input0 target0 true = 0 := by
  have hv0 : ∀ i : Fin 1, v_mag_of (input0 i) 0 = 1 := by
    intro i
    unfold v_mag_of input0
    simp only [if_pos rfl]
    rw [Finset.sum_const, Finset.card_univ]
    norm_num
  have hvc : ∀ (i : Fin 1) (c : Fin 10), c ≠ 0 → v_mag_of (input0 i) c = 0 := by
    intro i c hc
    unfold v_mag_of input0
    simp [hc]
  refine margin_loss_zero net0 input0 target0 (fun _ => 0) (fun i c => rfl) ?_ ?_ true
  · intro i
    rw [hv0 i]
    norm_num
  · intro i c hc
    rw [hvc i c hc]
    norm_num

/-- Index returned by `v_mag.max(dim=1)` in `reconstruct`: the first
(least) index attaining the maximum of `f` over the 10 classes. -/
noncomputable def winning_index (f : Fin 10 → ℝ) : Fin 10 :=
  (Finset.univ.filter fun c => ∀ c', f c' ≤ f c).min' (by
    obtain ⟨c, -, hc⟩ :=
      Finset.exists_max_image Finset.univ f ⟨0, Finset.mem_univ 0⟩
    exact ⟨c, Finset.mem_filter.2
      ⟨Finset.mem_univ c, fun c' => hc c' (Finset.mem_univ c')⟩⟩)

/-- The winning index attains the maximum of `f`. -/
theorem winning_index_is_max (f : Fin 10 → ℝ) (c : Fin 10) :
    f c ≤ f (winning_index f) := by
  have h : winning_index f ∈ Finset.univ.filter fun c => ∀ c', f c' ≤ f c := by
    unfold winning_index
    exact Finset.min'_mem _ _
  exact (Finset.mem_filter.1 h).2 c

/-- The winning index is the least index attaining the maximum of `f`. -/
theorem winning_index_le (f : Fin 10 → ℝ) (c : Fin 10)
    (hc : ∀ c', f c' ≤ f c) : winning_index f ≤ c := by
  unfold winning_index
  exact Finset.min'_le _ c (Finset.mem_filter.2 ⟨Finset.mem_univ c, hc⟩)

/-- One sample of the masking loop of `reconstruct` (lines 154-169):
`batch_masked = zeros; batch_masked[w] = input_batch[w]`, i.e. row `w`
is copied from `u` and every other row stays zero. -/
def masked_sample (u : Fin 10 → Fin 16 → ℝ) (w : Fin 10) :
    Fin 10 → Fin 16 → ℝ :=
  fun c k => if c = w then u c k else 0

/-- `masked.view(batch_size, -1)` for one sample: the row-major
flattening of a `[10, 16]` tensor into 160 values. -/
def flatten_caps (m : Fin 10 → Fin 16 → ℝ) : Fin 160 → ℝ :=
  fun k => m ⟨k.val / 16, by have := k.isLt; omega⟩ ⟨k.val % 16, by omega⟩

/-- `CapsuleNetwork.reconstruct` (lines 139-182): asserts that the
reconstruction path is enabled, computes the per-class capsule lengths,
takes the per-sample argmax, masks all non-winning capsules to zero,
flattens, and feeds the result to the decoder.  The failed `assert` is
modelled as `Except.error` with the assertion's message. -/
noncomputable def CapsuleNetwork.reconstruct (net : CapsuleNetwork) {b : ℕ}
    (input : Fin b → Fin 10 → Fin 16 → ℝ) :
    Except String (Fin b → Fin 784 → ℝ) :=
  if net.has_reconstruction then
    .ok (fun i => net.decoder (flatten_caps (masked_sample (input i)
      (winning_index fun c => v_mag_of (input i) c))))
  else
    .error "Reconstruction path is disabled. For the reconstruction, configure `reconstruct=True` of CapsuleNetwork."

/-- `CapsuleNetwork.reconstruction_loss` (lines 111-137): reconstructs
the images, takes the per-sample sum of squared pixel differences,
averages or sums over the batch, and scales by `rec_loss_weight=0.0005`. -/
noncomputable def CapsuleNetwork.reconstruction_loss (net : CapsuleNetwork)
    {b : ℕ} (images : Fin b → Fin 784 → ℝ)
    (input : Fin b → Fin 10 → Fin 16 → ℝ) (size_average : Bool) :
    Except String ℝ :=
  (net.reconstruct input).map fun reconstructed =>
    let err : Fin b → ℝ := fun i => ∑ p : Fin 784, (reconstructed i p - images i p) ^ 2
    let e := if size_average then (∑ i : Fin b, err i) / (b : ℝ) else ∑ i : Fin b, err i
    e * 0.0005

/-- `CapsuleNetwork.loss` (lines 56-72): the margin loss plus, when the
network was built with `reconstruct=True`, the reconstruction loss
(otherwise a zero tensor); returns the triple
`(loss, margin_loss, reconstruction_loss)`. -/
noncomputable def CapsuleNetwork.loss (net : CapsuleNetwork) {b : ℕ}
    (images : Fin b → Fin 784 → ℝ) (input : Fin b → Fin 10 → Fin 16 → ℝ)
    (target : Fin b → Fin 10 → ℝ) (size_average : Bool) :
    Except String (ℝ × ℝ × ℝ) :=
  let margin_loss := net.margin_loss input target size_average
  if net.has_reconstruction then
    (net.reconstruction_loss images input size_average).map
      fun reconstruction_loss =>
        (margin_loss + reconstruction_loss, margin_loss, reconstruction_loss)
  else
    .ok (margin_loss + 0, margin_loss, 0)

/-- C3: inside `reconstruct`, the masked tensor of each batch sample
keeps the capsule at the winning index unchanged, zeroes the other nine
capsule vectors, and the winning index is the argmax of the per-capsule
norms (it attains the maximum, and is the first index doing so). -/
theorem reconstruct_masking {b : ℕ}
    (input : Fin b → Fin 10 → Fin 16 → ℝ) (i : Fin b) :
    (∀ k, masked_sample (input i) (winning_index fun c => v_mag_of (input i) c)
        (winning_index fun c => v_mag_of (input i) c) k
      = input i (winning_index fun c => v_mag_of (input i) c) k)
    ∧ (∀ c, c ≠ (winning_index fun c => v_mag_of (input i) c) →
        ∀ k, masked_sample (input i)
          (winning_index fun c => v_mag_of (input i) c) c k = 0)
    ∧ (∀ c, v_mag_of (input i) c
        ≤ v_mag_of (input i) (winning_index fun c => v_mag_of (input i) c))
    ∧ (∀ c, (∀ c', v_mag_of (input i) c' ≤ v_mag_of (input i) c) →
        (winning_index fun c => v_mag_of (input i) c) ≤ c) :=
  ⟨fun k => by simp [masked_sample],
   fun c hc k => by simp [masked_sample, hc],
   fun c => winning_index_is_max _ c,
   fun c hc => winning_index_le _ c hc⟩

/-- Witness for C3 at a concrete input (batch 1): the winning capsule's
first coordinate survives the masking unchanged. -/
theorem reconstruct_masking_witness :
    masked_sample (input0 0) (winning_index fun c => v_mag_of (input0 0) c)
      (winning_index fun c => v_mag_of (input0 0) c) 0
    = input0 0 (winning_index fun c => v_mag_of (input0 0) c) 0 :=
  (reconstruct_masking input0 0).1 0

/-- C7: calling `reconstruct` on a network built with `reconstruct=False`
fails with the assertion's explicit error message. -/
theorem reconstruct_disabled_error (net : CapsuleNetwork)
    (hrec : net.has_reconstruction = false) {b : ℕ}
    (input : Fin b → Fin 10 → Fin 16 → ℝ) :
    net.reconstruct input = .error "Reconstruction path is disabled. For the reconstruction, configure `reconstruct=True` of CapsuleNetwork." := by
  unfold CapsuleNetwork.reconstruct
  rw [hrec]
  simp

/-- Concrete network with the reconstruction path disabled. -/
noncomputable def net_nr : CapsuleNetwork := ⟨3, false, -1, fun _ _ => 0⟩

/-- Witness for C7: the disabled network rejects a concrete call. -/
theorem reconstruct_disabled_error_witness :
    net_nr.reconstruct input0 = .error "Reconstruction path is disabled. For the reconstruction, configure `reconstruct=True` of CapsuleNetwork." :=
  reconstruct_disabled_error net_nr rfl input0

/-- Concrete all-zero image batch of size 1. -/
noncomputable def images0 : Fin 1 → Fin 784 → ℝ := fun _ _ => 0

/-- C4: with the reconstruction path enabled, `reconstruction_loss` is
the per-sample sum of squared pixel differences between the decoder's
reconstruction of the masked capsules and the original images, averaged
(`size_average`) or summed over the batch, then multiplied by 0.0005. -/
theorem reconstruction_loss_formula (net : CapsuleNetwork)
    (hrec : net.has_reconstruction = true) {b : ℕ}
    (images : Fin b → Fin 784 → ℝ) (input : Fin b → Fin 10 → Fin 16 → ℝ)
    (size_average : Bool) :
    net.reconstruction_loss images input size_average =
      .ok ((let err : Fin b → ℝ := fun i => ∑ p : Fin 784,
              (net.decoder (flatten_caps (masked_sample (input i)
                (winning_index fun c => v_mag_of (input i) c))) p
                - images i p) ^ 2
            if size_average then (∑ i : Fin b, err i) / (b : ℝ)
            else ∑ i : Fin b, err i) * 0.0005) := by
  unfold CapsuleNetwork.reconstruction_loss CapsuleNetwork.reconstruct
  rw [hrec]
  rfl

/-- Witness for C4: the formula applies to a concrete enabled network. -/
theorem reconstruction_loss_formula_witness :
    net0.reconstruction_loss images0 input0 true =
      .ok ((let err : Fin 1 → ℝ := fun i => ∑ p : Fin 784,
              (net0.decoder (flatten_caps (masked_sample (input0 i)
                (winning_index fun c => v_mag_of (input0 i) c))) p
                - images0 i p) ^ 2
            if true then (∑ i : Fin 1, err i) / ((1 : ℕ) : ℝ)
            else ∑ i : Fin 1, err i) * 0.0005) :=
  reconstruction_loss_formula net0 rfl images0 input0 true

/-- C5: `loss` returns `(total, margin, reconstruction)` with
`total = margin + reconstruction`; when the network was built with
`reconstruct=False` the reconstruction component is 0, the total equals
the margin loss alone, and the decoder is never invoked (the result does
not depend on it). -/
theorem loss_total (net : CapsuleNetwork) {b : ℕ}
    (images : Fin b → Fin 784 → ℝ) (input : Fin b → Fin 10 → Fin 16 → ℝ)
    (target : Fin b → Fin 10 → ℝ) (size_average : Bool) :
    (∀ t m r, net.loss images input target size_average = .ok (t, m, r) →
      t = m + r)
    ∧ (net.has_reconstruction = false →
        net.loss images input target size_average =
          .ok (net.margin_loss input target size_average,
               net.margin_loss input target size_average, 0)
        ∧ ∀ d₁ d₂ : (Fin 160 → ℝ) → Fin 784 → ℝ,
            CapsuleNetwork.loss ⟨net.routing_iters, false, net.gpu, d₁⟩
              images input target size_average
            = CapsuleNetwork.loss ⟨net.routing_iters, false, net.gpu, d₂⟩
              images input target size_average) := by
  constructor
  · intro t m r h
    unfold CapsuleNetwork.loss at h
    cases hrec : net.has_reconstruction with
    | false =>
      rw [hrec] at h
      simp only [Bool.false_eq_true, if_false, Except.ok.injEq,
        Prod.mk.injEq] at h
      obtain ⟨h1, h2, h3⟩ := h
      rw [← h1, ← h2, ← h3]
    | true =>
      rw [hrec] at h
      simp only [if_true] at h
      cases hrl : net.reconstruction_loss images input size_average with
      | error e =>
        rw [hrl] at h
        simp [Except.map] at h
      | ok rv =>
        rw [hrl] at h
        simp only [Except.map, Except.ok.injEq, Prod.mk.injEq] at h
        obtain ⟨h1, h2, h3⟩ := h
        rw [← h1, ← h2, ← h3]
  · intro hrec
    constructor
    · unfold CapsuleNetwork.loss
      rw [hrec]
      simp
    · intro d₁ d₂
      rfl

/-- Witness for C5: a concrete disabled network returns the margin loss
as the total and 0 as the reconstruction component. -/
theorem loss_total_witness :
    net_nr.loss images0 input0 target0 true =
      .ok (net_nr.margin_loss input0 target0 true,
           net_nr.margin_loss input0 target0 true, 0) :=
  ((loss_total net_nr images0 input0 target0 true).2 rfl).1

/-- C6: with a positive batch size, the margin loss, the reconstruction
loss and the total loss computed with mean reduction each equal the same
loss computed with sum reduction divided by the batch size. -/
theorem loss_mean_eq_sum_div (net : CapsuleNetwork) {b : ℕ} (_hb : 0 < b)
    (images : Fin b → Fin 784 → ℝ) (input : Fin b → Fin 10 → Fin 16 → ℝ)
    (target : Fin b → Fin 10 → ℝ) :
    net.margin_loss input target true
      = net.margin_loss input target false / (b : ℝ)
    ∧ net.reconstruction_loss images input true
      = (net.reconstruction_loss images input false).map
          (fun x => x / (b : ℝ))
    ∧ net.loss images input target true
      = (net.loss images input target false).map
          (fun p => (p.1 / (b : ℝ), p.2.1 / (b : ℝ), p.2.2 / (b : ℝ))) := by
  have hmargin : net.margin_loss input target true
      = net.margin_loss input target false / (b : ℝ) := by
    unfold CapsuleNetwork.margin_loss
    simp
  have hrecl : net.reconstruction_loss images input true
      = (net.reconstruction_loss images input false).map
          (fun x => x / (b : ℝ)) := by
    unfold CapsuleNetwork.reconstruction_loss
    cases hr : net.reconstruct input with
    | error e => rfl
    | ok v =>
      simp only [Except.map, if_true, Bool.false_eq_true, if_false]
      rw [div_mul_eq_mul_div]
  refine ⟨hmargin, hrecl, ?_⟩
  unfold CapsuleNetwork.loss
  cases hfl : net.has_reconstruction with
  | false =>
    simp only [Bool.false_eq_true, if_false, Except.map, hmargin]
    rw [add_zero, add_zero, zero_div]
  | true =>
    simp only [if_true]
    rw [hrecl]
    cases hrl : net.reconstruction_loss images input false with
    | error e => rfl
    | ok rv =>
      simp only [Except.map, Except.ok.injEq, Prod.mk.injEq, hmargin]
      ring_nf
      simp

/-- Witness for C6 at batch size 1: the mean-reduced margin loss equals
the sum-reduced margin loss divided by the batch size. -/
theorem loss_mean_eq_sum_div_witness :
    net0.margin_loss input0 target0 true
      = net0.margin_loss input0 target0 false / ((1 : ℕ) : ℝ) :=
  (loss_mean_eq_sum_div net0 Nat.one_pos images0 input0 target0).1

/-- C10: for a network built with `reconstruct=False`, `loss` does not
depend on the images: two calls with the same capsule input, target and
reduction flag but different images return the same loss triple. -/
theorem loss_independent_of_images (rit g : Int)
    (dec : (Fin 160 → ℝ) → Fin 784 → ℝ) {b : ℕ}
    (images₁ images₂ : Fin b → Fin 784 → ℝ)
    (input : Fin b → Fin 10 → Fin 16 → ℝ) (target : Fin b → Fin 10 → ℝ)
    (size_average : Bool) :
    CapsuleNetwork.loss ⟨rit, false, g, dec⟩ images₁ input target size_average
      = CapsuleNetwork.loss ⟨rit, false, g, dec⟩ images₂ input target
          size_average := by
  unfold CapsuleNetwork.loss
  simp

/-- A 2-D torch tensor with dynamic shape (`rows` × `cols` entries). -/
structure Tensor2 where
  rows : ℕ
  cols : ℕ
  entry : ℕ → ℕ → ℝ

/-- A 3-D torch tensor with dynamic shape. -/
structure Tensor3 where
  dim0 : ℕ
  dim1 : ℕ
  dim2 : ℕ
  entry : ℕ → ℕ → ℕ → ℝ

/-- Torch broadcasting of a single dimension: the sizes agree, or the
size-1 side is stretched; any other combination is a size mismatch. -/
def broadcastDim (m n : ℕ) : Option ℕ :=
  if m = n then some m
  else if m = 1 then some n
  else if n = 1 then some m
  else none

/-- Index into a possibly-stretched (broadcast) dimension. -/
def bIdx (size i : ℕ) : ℕ := if size = 1 then 0 else i

/-- An elementwise binary torch operation on two 2-D tensors with
broadcasting; raises torch's size-mismatch error when the shapes are not
broadcast-compatible. -/
def Tensor2.binop (op : ℝ → ℝ → ℝ) (A B : Tensor2) : Except String Tensor2 :=
  match broadcastDim A.rows B.rows, broadcastDim A.cols B.cols with
  | some r, some c =>
      .ok ⟨r, c, fun i j =>
        op (A.entry (bIdx A.rows i) (bIdx A.cols j))
           (B.entry (bIdx B.rows i) (bIdx B.cols j))⟩
  | _, _ =>
      .error "The size of tensor a must match the size of tensor b at non-singleton dimension"

/-- Elementwise map on a 2-D tensor (scalar broadcast operations). -/
def Tensor2.emap (f : ℝ → ℝ) (t : Tensor2) : Tensor2 :=
  ⟨t.rows, t.cols, fun i j => f (t.entry i j)⟩

/-- Elementwise map on a 3-D tensor (scalar broadcast operations, and
`torch.max(·, zero)` with the `[1]`-shaped zero tensor, which broadcasts
against any shape). -/
def Tensor3.emap (f : ℝ → ℝ) (t : Tensor3) : Tensor3 :=
  ⟨t.dim0, t.dim1, t.dim2, fun i j k => f (t.entry i j k)⟩

/-- `Tensor.sum(dim=2, keepdim=True)` on a 3-D tensor. -/
def Tensor3.sumDim2Keep (t : Tensor3) : Tensor3 :=
  ⟨t.dim0, t.dim1, 1, fun i j _ => ∑ k ∈ Finset.range t.dim2, t.entry i j k⟩

/-- `Tensor.view(dim0, -1)` on a 3-D tensor: row-major flattening of the
last two axes.  Torch rejects this reshape when the tensor has 0 elements
because the `-1` dimension is then ambiguous. -/
def Tensor3.view2 (t : Tensor3) : Except String Tensor2 :=
  if t.dim0 = 0 then
    .error "cannot reshape tensor of 0 elements into shape"
  else
    .ok ⟨t.dim0, t.dim1 * t.dim2, fun i j => t.entry i (j / t.dim2) (j % t.dim2)⟩

/-- Shape-carrying embedding of `CapsuleNetwork.margin_loss`: the same
pipeline as `CapsuleNetwork.margin_loss`, but on dynamically-shaped
tensors and following torch's broadcasting semantics in the elementwise
operations that involve the target (`T_c * max_l`,
`loss_lambda * (1.0 - T_c) * max_r`, and the sum of the two terms). -/
noncomputable def margin_loss_dyn (input : Tensor3) (target : Tensor2)
    (size_average : Bool) : Except String ℝ := do
  let v_mag : Tensor3 := ((input.emap fun x => x ^ 2).sumDim2Keep).emap Real.sqrt
  let max_l ← (v_mag.emap fun x => max (0.9 - x) 0).view2
  let max_l : Tensor2 := max_l.emap fun x => x ^ 2
  let max_r ← (v_mag.emap fun x => max (x - 0.1) 0).view2
  let max_r : Tensor2 := max_r.emap fun x => x ^ 2
  let T_c := target
  let left ← T_c.binop (fun x y => x * y) max_l
  let right ← (T_c.emap fun x => 0.5 * (1.0 - x)).binop (fun x y => x * y) max_r
  let L ← left.binop (fun x y => x + y) right
  let L_row : ℕ → ℝ := fun i => ∑ j ∈ Finset.range L.cols, L.entry i j
  if size_average then
    return (∑ i ∈ Finset.range L.rows, L_row i) / (L.rows : ℝ)
  else
    return ∑ i ∈ Finset.range L.rows, L_row i

/-- Decides whether an embedded torch computation returned a value
rather than raising an error. -/
def returnsValue {α : Type} : Except String α → Bool
  | .ok _ => true
  | .error _ => false

/-- Concrete `[1, 10, 16]` capsule tensor with all entries 1. -/
noncomputable def inputD : Tensor3 := ⟨1, 10, 16, fun _ _ _ => 1⟩

/-- A `[1, 1]` target: its class axis (1) disagrees with the 10 output
capsules, but torch broadcasting stretches it. -/
noncomputable def targetD1 : Tensor2 := ⟨1, 1, fun _ _ => 1⟩

/-- C9 counterexample: a target whose class axis is 1 instead of 10 does
not make the loss computation fail: the target is silently broadcast
against the hinge terms and a numeric result is returned. -/
theorem margin_loss_shape_mismatch_counterexample :
    returnsValue (margin_loss_dyn inputD targetD1 true) = true := rfl

/-- Broadcasting fails exactly when the sizes differ and neither is 1. -/
theorem broadcastDim_eq_none {m n : ℕ} (h1 : m ≠ n) (h2 : m ≠ 1)
    (h3 : n ≠ 1) : broadcastDim m n = none := by
  unfold broadcastDim
  rw [if_neg h1, if_neg h2, if_neg h3]

/-- A column mismatch makes an elementwise operation raise torch's
size-mismatch error, whatever the row dimensions are. -/
theorem Tensor2.binop_error (op : ℝ → ℝ → ℝ) (A B : Tensor2)
    (h : broadcastDim A.cols B.cols = none) :
    A.binop op B = .error "The size of tensor a must match the size of tensor b at non-singleton dimension" := by
  unfold Tensor2.binop
  rw [h]
  cases hr : broadcastDim A.rows B.rows with
  | none => rfl
  | some r => rfl

/-- C9 amended: a loss input whose target shape is not
broadcast-compatible with the hinge terms (class axis differing from the
class count, with neither equal to 1) fails fast at the first elementwise
product with torch's size-mismatch error; a size-1 axis is instead
silently broadcast to a numeric result. -/
theorem margin_loss_dyn_incompatible_errors (input : Tensor3)
    (target : Tensor2) (size_average : Bool) (h0 : input.dim0 ≠ 0)
    (hc : target.cols ≠ input.dim1) (hc1 : target.cols ≠ 1)
    (hn1 : input.dim1 ≠ 1) :
    margin_loss_dyn input target size_average =
      .error "The size of tensor a must match the size of tensor b at non-singleton dimension" := by
  have hcols : broadcastDim target.cols (input.dim1 * 1) = none := by
    rw [mul_one]
    exact broadcastDim_eq_none hc hc1 hn1
  unfold margin_loss_dyn
  simp only [Tensor3.emap, Tensor3.sumDim2Keep, Tensor3.view2]
  rw [if_neg h0]
  simp only [bind, Except.bind]
  rw [Tensor2.binop_error _ _ _ hcols]
  rw [if_neg h0]

/-- A `[1, 5]` target: class axis 5, neither matching the 10 classes nor
broadcastable. -/
noncomputable def targetD5 : Tensor2 := ⟨1, 5, fun _ _ => 1⟩

/-- Witness for the amended C9: a target with class axis 5 makes the
margin-loss computation raise the size-mismatch error. -/
theorem margin_loss_dyn_incompatible_errors_witness :
    margin_loss_dyn inputD targetD5 true =
      .error "The size of tensor a must match the size of tensor b at non-singleton dimension" :=
  margin_loss_dyn_incompatible_errors inputD targetD5 true
    (by decide) (by decide) (by decide) (by decide)

/-- Fixed-shape `[b, 10, 16]` tensors seen in the dynamic representation. -/
noncomputable def toTensor3 {b : ℕ} (input : Fin b → Fin 10 → Fin 16 → ℝ) :
    Tensor3 :=
  ⟨b, 10, 16, fun i c k =>
    if h : i < b ∧ c < 10 ∧ k < 16 then input ⟨i, h.1⟩ ⟨c, h.2.1⟩ ⟨k, h.2.2⟩
    else 0⟩

/-- Fixed-shape `[b, 10]` tensors seen in the dynamic representation. -/
noncomputable def toTensor2 {b : ℕ} (target : Fin b → Fin 10 → ℝ) : Tensor2 :=
  ⟨b, 10, fun i c => if h : i < b ∧ c < 10 then target ⟨i, h.1⟩ ⟨c, h.2⟩ else 0⟩

/-- Collapsing two identical stacked broadcasts. -/
theorem ite_stack {c : Prop} [Decidable c] {α : Sort*} (a b : α) :
    (if c then a else if c then a else b) = if c then a else b := by
  by_cases h : c
  · rw [if_pos h, if_pos h]
  · rw [if_neg h]

/-- The class dimension 10 is never stretched by broadcasting. -/
theorem if_ten_one {α : Sort*} (x y : α) :
    (if (10 : ℕ) = 1 then x else y) = y :=
  if_neg (by norm_num)

/-- The two embeddings of `margin_loss` agree: on tensors of the declared
shapes `[b, 10, 16]` and `[b, 10]` with a nonempty batch, the
shape-carrying pipeline returns exactly the fixed-shape value. -/
theorem margin_loss_dyn_coherent (net : CapsuleNetwork) {b : ℕ} (hb : b ≠ 0)
    (input : Fin b → Fin 10 → Fin 16 → ℝ) (target : Fin b → Fin 10 → ℝ)
    (size_average : Bool) :
    margin_loss_dyn (toTensor3 input) (toTensor2 target) size_average
      = .ok (net.margin_loss input target size_average) := by
  unfold margin_loss_dyn CapsuleNetwork.margin_loss
  simp only [toTensor3, toTensor2, Tensor3.emap, Tensor3.sumDim2Keep,
    Tensor3.view2, Tensor2.emap]
  rw [if_neg hb, if_neg hb]
  simp only [bind, Except.bind]
  simp only [Tensor2.binop, broadcastDim, Nat.mul_one, eq_self_iff_true,
    if_true, bIdx]
  simp only [if_ten_one, ite_stack, Nat.div_one]
  rcases size_average with _ | _
  · simp only [Bool.false_eq_true, if_false]
    refine congrArg Except.ok ?_
    rw [← Fin.sum_univ_eq_sum_range]
    refine Finset.sum_congr rfl fun i _ => ?_
    rw [← Fin.sum_univ_eq_sum_range]
    refine Finset.sum_congr rfl fun j _ => ?_
    have hbi : (if b = 1 then 0 else (i : ℕ)) = (i : ℕ) := by
      have := i.isLt
      split <;> omega
    simp only [hbi]
    have hcond : (i : ℕ) < b ∧ (j : ℕ) < 10 := ⟨i.isLt, j.isLt⟩
    rw [dif_pos hcond]
    have hsq : (∑ k ∈ Finset.range 16,
        (if h : (i : ℕ) < b ∧ (j : ℕ) < 10 ∧ k < 16 then
          input ⟨(i : ℕ), h.1⟩ ⟨(j : ℕ), h.2.1⟩ ⟨k, h.2.2⟩ else 0) ^ 2)
        = ∑ k : Fin 16, input i j k ^ 2 := by
      rw [← Fin.sum_univ_eq_sum_range]
      refine Finset.sum_congr rfl fun k _ => ?_
      rw [dif_pos ⟨i.isLt, j.isLt, k.isLt⟩]

    rw [hsq]
    simp only [v_mag_of, Fin.eta]
    norm_num
  · simp only [if_pos rfl]
    refine congrArg Except.ok ?_
    refine congrArg (fun s => s / ((b : ℕ) : ℝ)) ?_
    rw [← Fin.sum_univ_eq_sum_range]
    refine Finset.sum_congr rfl fun i _ => ?_
    rw [← Fin.sum_univ_eq_sum_range]
    refine Finset.sum_congr rfl fun j _ => ?_
    have hbi : (if b = 1 then 0 else (i : ℕ)) = (i : ℕ) := by
      have := i.isLt
      split <;> omega
    simp only [hbi]
    have hcond : (i : ℕ) < b ∧ (j : ℕ) < 10 := ⟨i.isLt, j.isLt⟩
    rw [dif_pos hcond]
    have hsq : (∑ k ∈ Finset.range 16,
        (if h : (i : ℕ) < b ∧ (j : ℕ) < 10 ∧ k < 16 then
          input ⟨(i : ℕ), h.1⟩ ⟨(j : ℕ), h.2.1⟩ ⟨k, h.2.2⟩ else 0) ^ 2)
        = ∑ k : Fin 16, input i j k ^ 2 := by
      rw [← Fin.sum_univ_eq_sum_range]
      refine Finset.sum_congr rfl fun k _ => ?_
      rw [dif_pos ⟨i.isLt, j.isLt, k.isLt⟩]

    rw [hsq]
    simp only [v_mag_of, Fin.eta]
    norm_num
